import Mathlib

/-!
Verification of the acquisition-and-forecast engine of the anime schedule
tracker: the date utilities and fallback dataset of the scraper module, the
retry/backoff loop of `scrapeAniwatch`, and the forecaster/diff logic of
`AnimeAutoScheduler` (`autoScheduleEpisodes`, `calculateFutureDate`,
`estimateTotalEpisodes`, `saveScheduleToFirestore`, `detectChanges`).

Calendar dates are embedded as integer day numbers (days since the Unix
epoch, which fell on a Thursday); the JavaScript `Date.getDay()` weekday of
day `d` is `(d + 4) % 7` with `0 = Sunday .. 6 = Saturday`.  The source
formats a date as a `yyyy-MM-dd` string; that rendering is injective on day
numbers, so date equality/ordering facts are stated on the day numbers
themselves.  Timestamps (`new Date()` captured for `detectedAt`) are
likewise embedded as integers.
-/

namespace AnimeFlow

/-- JavaScript `Date.getDay()` for a date given as days since the epoch:
`0 = Sunday, ..., 6 = Saturday`.  Day 0 (1970-01-01) was a Thursday. -/
def jsGetDay (d : ℤ) : ℤ := (d + 4) % 7

/-- JavaScript `Array.prototype.indexOf` on a list of strings: the index of
the first occurrence, `-1` when absent. -/
def jsIndexOf : List String → String → ℤ
  | [], _ => -1
  | d :: rest, s =>
      if d = s then 0
      else
        let r := jsIndexOf rest s
        if r = -1 then -1 else r + 1

/-- Check whether the second character list is a prefix of the first. -/
def startsWithChars : List Char → List Char → Bool
  | _, [] => true
  | [], _ :: _ => false
  | c :: cs, d :: ds => c = d && startsWithChars cs ds

/-- Check whether the second character list occurs contiguously in the
first. -/
def containsChars : List Char → List Char → Bool
  | [], sub => sub.isEmpty
  | c :: cs, sub => startsWithChars (c :: cs) sub || containsChars cs sub

/-- JavaScript `String.prototype.includes`: substring containment. -/
def strContains (s sub : String) : Bool := containsChars s.toList sub.toList

/-- JavaScript `String.prototype.toLowerCase()` (over the code points; the
strings handled here are ASCII).  Implemented on the character list so that
it reduces definitionally. -/
def jsToLower (s : String) : String := String.mk (s.toList.map Char.toLower)

/-- JavaScript `String.prototype.trim()`: strip leading and trailing
whitespace. -/
def jsTrim (s : String) : String :=
  String.mk (((s.toList.dropWhile Char.isWhitespace).reverse.dropWhile
    Char.isWhitespace).reverse)

/-- The canonical weekday-name array used by `getDateForDay`
(`['Sunday', ..., 'Saturday']`). -/
def daysList : List String :=
  ["Sunday", "Monday", "Tuesday", "Wednesday", "Thursday", "Friday", "Saturday"]

/-- The abbreviation table of `AnimeDataScraper.normalizeDay`. -/
def dayAbbrevTable : List (String × String) :=
  [("sun", "Sunday"), ("sunday", "Sunday"),
   ("mon", "Monday"), ("monday", "Monday"),
   ("tue", "Tuesday"), ("tuesday", "Tuesday"),
   ("wed", "Wednesday"), ("wednesday", "Wednesday"),
   ("thu", "Thursday"), ("thursday", "Thursday"),
   ("fri", "Friday"), ("friday", "Friday"),
   ("sat", "Saturday"), ("saturday", "Saturday")]

/-- Association-list lookup by string key (first match), used to embed the
JavaScript object-literal lookups. -/
def assocLookup {α : Type} : List (String × α) → String → Option α
  | [], _ => none
  | (k, v) :: rest, s => if k = s then some v else assocLookup rest s

/-- Embedding of `AnimeDataScraper.normalizeDay`: lower-case and trim the day name, map
known names/abbreviations to the canonical name, otherwise return the input
unchanged (`days[normalized] || day`). -/
def normalizeDay (day : String) : String :=
  match assocLookup dayAbbrevTable (jsTrim (jsToLower day)) with
  | some d => d
  | none => day

/-- Embedding of `AnimeDataScraper.getDateForDay`: resolve a day name to a calendar date
relative to `reference`.  `targetDay - currentDay` is added to the reference
date without wrap-around, so the result is the named weekday within the
reference date's Sunday-started week; an unrecognized day name returns the
reference date itself (the source formats it as an ISO date string). -/
def getDateForDay (dayName : String) (reference : ℤ) : ℤ :=
  let currentDay := jsGetDay reference
  let targetDay := jsIndexOf daysList (normalizeDay dayName)
  if targetDay = -1 then reference
  else
    reference + (targetDay - currentDay)

/-- The `dayToNumber` record of `AnimeAutoScheduler`. -/
def dayToNumber (s : String) : Option ℤ :=
  assocLookup
    [("Sunday", 0), ("Monday", 1), ("Tuesday", 2), ("Wednesday", 3),
     ("Thursday", 4), ("Friday", 5), ("Saturday", 6)] s

/-- Embedding of `AnimeAutoScheduler.calculateFutureDate`: days until the next strictly
future occurrence of the target weekday (`?? 0` falls back to Sunday for an
unknown name; a non-positive difference is pushed one week ahead), plus
`(weeksFromNow - 1)` further weeks. -/
def calculateFutureDate (dayOfWeek : String) (weeksFromNow : ℤ) (today : ℤ) : ℤ :=
  let targetDayNum := (dayToNumber dayOfWeek).getD 0
  let currentDayNum := jsGetDay today
  let d0 := targetDayNum - currentDayNum
  let daysUntilTarget := if d0 ≤ 0 then d0 + 7 else d0
  today + daysUntilTarget + (weeksFromNow - 1) * 7

/-- Days until the strictly-future next occurrence used by
`calculateFutureDate`, isolated for reasoning. -/
def daysUntilNext (dayOfWeek : String) (today : ℤ) : ℤ :=
  let d0 := (dayToNumber dayOfWeek).getD 0 - jsGetDay today
  if d0 ≤ 0 then d0 + 7 else d0

theorem calculateFutureDate_eq (dayOfWeek : String) (weeksFromNow today : ℤ) :
    calculateFutureDate dayOfWeek weeksFromNow today =
      today + daysUntilNext dayOfWeek today + (weeksFromNow - 1) * 7 := rfl

/-! ### JavaScript `parseInt`

`parseInt(s)` with no radix argument: skip leading whitespace, read an
optional sign, an optional `0x`/`0X` hex prefix, then the longest prefix of
digits in the resulting radix; no digits means `NaN` (embedded as `none`). -/

/-- Value of a character as a digit in the given radix, if valid. -/
def digitVal (radix : ℕ) (c : Char) : Option ℕ :=
  let v :=
    if '0' ≤ c ∧ c ≤ '9' then some (c.toNat - '0'.toNat)
    else if 'a' ≤ c ∧ c ≤ 'z' then some (c.toNat - 'a'.toNat + 10)
    else if 'A' ≤ c ∧ c ≤ 'Z' then some (c.toNat - 'A'.toNat + 10)
    else none
  match v with
  | some n => if n < radix then some n else none
  | none => none

/-- Whether the list starts with at least one valid digit. -/
def hasDigit (radix : ℕ) (cs : List Char) : Bool :=
  match cs with
  | [] => false
  | c :: _ => (digitVal radix c).isSome

/-- Numeric value of the longest digit prefix. -/
def digitsValue (radix : ℕ) : List Char → ℕ → ℕ
  | [], acc => acc
  | c :: rest, acc =>
      match digitVal radix c with
      | some v => digitsValue radix rest (acc * radix + v)
      | none => acc

/-- Consume an optional leading sign, returning the sign and the rest. -/
def signSplit : List Char → ℤ × List Char
  | [] => (1, [])
  | c :: rest =>
      if c = '-' then (-1, rest)
      else if c = '+' then (1, rest)
      else (1, c :: rest)

/-- Consume an optional `0x`/`0X` hex marker, returning the radix and the
rest. -/
def radixSplit : List Char → ℕ × List Char
  | [] => (10, [])
  | [c] => (10, [c])
  | c :: d :: rest =>
      if c = '0' ∧ (d = 'x' ∨ d = 'X') then (16, rest)
      else (10, c :: d :: rest)

/-- JavaScript `parseInt` with no radix argument; `none` embeds `NaN`. -/
def jsParseInt (s : String) : Option ℤ :=
  let cs := s.toList.dropWhile (fun c => c.isWhitespace)
  let sc := signSplit cs
  let rc := radixSplit sc.2
  if hasDigit rc.1 rc.2 then some (sc.1 * (digitsValue rc.1 rc.2 0 : ℤ))
  else none

/-- Embedding of `parseInt(anime.episode) || 1`: `NaN` and `0` (both falsy) default
to `1`. -/
def parseIntOr1 (s : String) : ℤ :=
  match jsParseInt s with
  | none => 1
  | some n => if n = 0 then 1 else n

/-! ### Data model -/

/-- The `AnimeData` interface of the Firebase config module.  `date` is a
day number (the source stores the ISO rendering); `rating` is the source's
floating-point score, modelled as a rational since no claim computes with
it. -/
structure AnimeData where
  title : String
  day : String
  time : String
  episode : String
  image : String
  date : ℤ
  trending : Bool
  genre : String
  malId : Option ℤ := none
  totalEpisodes : Option ℤ := none
  studio : Option String := none
  rating : Option ℚ := none
deriving DecidableEq, Repr

/-- The `ScheduledEpisode` interface of the auto-scheduler module. -/
structure ScheduledEpisode where
  episode : ℤ
  date : ℤ
  airTime : String
  confirmed : Bool
deriving DecidableEq, Repr

/-- The `ScheduleDocument` interface of the Firebase config module, minus
the store-managed `createdAt`/`updatedAt` timestamps the scheduler omits. -/
structure ScheduleDocument where
  animeId : String
  title : String
  totalEpisodes : ℤ
  currentEpisode : ℤ
  dayOfWeek : String
  airTime : String
  timezone : String
  autoScheduled : Bool
  nextEpisodes : List ScheduledEpisode
deriving DecidableEq, Repr

/-! ### Episode forecaster (`AnimeAutoScheduler`) -/

/-- The `longRunning` curated list of `estimateTotalEpisodes`. -/
def longRunning : List String :=
  ["one piece", "boruto", "dragon ball", "detective conan", "case closed",
   "pokemon", "naruto", "bleach", "fairy tail", "black clover"]

/-- The `twoCour` curated list of `estimateTotalEpisodes`. -/
def twoCour : List String := ["kingdom", "frieren", "mushoku tensei"]

/-- Embedding of `AnimeAutoScheduler.estimateTotalEpisodes`: bucket the title by
substring heuristics. -/
def estimateTotalEpisodes (title : String) (currentEpisode : ℤ) : ℤ :=
  if longRunning.any (fun lr => strContains (jsToLower title) lr) then
    currentEpisode + 52
  else if twoCour.any (fun tc => strContains (jsToLower title) tc) then
    max 24 currentEpisode
  else
    max 12 currentEpisode

/-- Embedding of `anime.totalEpisodes || await this.estimateTotalEpisodes(...)`: a
missing enrichment count, and the falsy count `0`, fall back to the
estimate. -/
def resolveTotalEpisodes (a : AnimeData) (currentEpisode : ℤ) : ℤ :=
  match a.totalEpisodes with
  | some n => if n = 0 then estimateTotalEpisodes a.title currentEpisode else n
  | none => estimateTotalEpisodes a.title currentEpisode

/-- The episode numbers visited by the loop
`for (let ep = currentEpisode + 1; ep <= totalEpisodes; ep++)`. -/
def epRange (cur total : ℤ) : List ℤ :=
  (List.range (total - cur).toNat).map (fun i : ℕ => cur + 1 + (i : ℤ))

/-- Embedding of `AnimeAutoScheduler.autoScheduleEpisodes` (pure part): the future
schedule built for one entry, with `today` the run's reference date. -/
def autoScheduleEpisodes (a : AnimeData) (today : ℤ) : List ScheduledEpisode :=
  let currentEpisode := parseIntOr1 a.episode
  let totalEpisodes := resolveTotalEpisodes a currentEpisode
  (epRange currentEpisode totalEpisodes).map (fun ep =>
    { episode := ep
      date := calculateFutureDate a.day (ep - currentEpisode) today
      airTime := a.time
      confirmed := false })

/-- Embedding of the id derivation `anime.title.toLowerCase().replace(/[^a-z0-9]/g, "-")`. -/
def toAnimeId (title : String) : String :=
  String.mk ((jsToLower title).toList.map (fun c =>
    if ('a' ≤ c ∧ c ≤ 'z') ∨ ('0' ≤ c ∧ c ≤ '9') then c else '-'))

/-- Embedding of `AnimeAutoScheduler.saveScheduleToFirestore`: the document persisted
for one entry (the write itself is the external store's side). -/
def buildScheduleDocument (a : AnimeData) (today : ℤ) : ScheduleDocument :=
  let currentEpisode := parseIntOr1 a.episode
  let totalEpisodes := resolveTotalEpisodes a currentEpisode
  { animeId := toAnimeId a.title
    title := a.title
    totalEpisodes := totalEpisodes
    currentEpisode := currentEpisode
    dayOfWeek := a.day
    airTime := a.time
    timezone := "JST"
    autoScheduled := true
    nextEpisodes := autoScheduleEpisodes a today }

/-! ### Fallback dataset (`AnimeDataScraper.getFallbackSchedule`) -/

/-- Embedding of `AnimeDataScraper.getFallbackSchedule`: the static hand-maintained
snapshot returned when every transport fails, dated relative to `today`. -/
def getFallbackSchedule (today : ℤ) : List AnimeData :=
  [{ title := "Demon Slayer: Kimetsu no Yaiba - Infinity Castle", day := "Thursday",
     time := "19:11", episode := "Movie",
     image := "https://cdn.myanimelist.net/images/anime/1286/99889.jpg",
     date := getDateForDay "Thursday" today, trending := true, genre := "Action, Supernatural" },
   { title := "This Monster Wants to Eat Me", day := "Thursday", time := "Released",
     episode := "13", image := "https://cdn.myanimelist.net/images/anime/1015/143559.jpg",
     date := getDateForDay "Thursday" today, trending := false, genre := "Horror" },
   { title := "So You're Raising a Warrior", day := "Friday", time := "03:00",
     episode := "11", image := "https://cdn.myanimelist.net/images/anime/1706/144109.jpg",
     date := getDateForDay "Friday" today, trending := false, genre := "Fantasy" },
   { title := "Tougen Anki", day := "Friday", time := "15:40", episode := "24",
     image := "https://cdn.myanimelist.net/images/anime/1100/141874.jpg",
     date := getDateForDay "Friday" today, trending := true, genre := "Action, Supernatural" },
   { title := "Ganglion", day := "Friday", time := "16:50", episode := "13",
     image := "https://cdn.myanimelist.net/images/anime/1908/143206.jpg",
     date := getDateForDay "Friday" today, trending := false, genre := "Horror" },
   { title := "Spy x Family Season 3", day := "Saturday", time := "15:15", episode := "13",
     image := "https://cdn.myanimelist.net/images/anime/1506/138982.jpg",
     date := getDateForDay "Saturday" today, trending := true, genre := "Action, Comedy" },
   { title := "To Your Eternity Season 3", day := "Saturday", time := "16:00", episode := "13",
     image := "https://cdn.myanimelist.net/images/anime/1271/138435.jpg",
     date := getDateForDay "Saturday" today, trending := true, genre := "Drama, Fantasy" },
   { title := "Kingdom: Season 6", day := "Saturday", time := "18:58", episode := "13",
     image := "https://cdn.myanimelist.net/images/anime/1809/143011.jpg",
     date := getDateForDay "Saturday" today, trending := false, genre := "Action, Historical" },
   { title := "One Piece", day := "Sunday", time := "16:05", episode := "1155",
     image := "https://cdn.myanimelist.net/images/anime/1244/138851.jpg",
     date := getDateForDay "Sunday" today, trending := true, genre := "Action, Adventure" },
   { title := "One-Punch Man Season 3", day := "Sunday", time := "16:25", episode := "12",
     image := "https://cdn.myanimelist.net/images/anime/1247/142693.jpg",
     date := getDateForDay "Sunday" today, trending := true, genre := "Action, Comedy" },
   { title := "A Mangaka's Weirdly Wonderful Workplace", day := "Monday", time := "13:10",
     episode := "13", image := "https://cdn.myanimelist.net/images/anime/1320/143874.jpg",
     date := getDateForDay "Monday" today, trending := false, genre := "Comedy, Slice of Life" },
   { title := "Plus-sized Misadventures in Love!", day := "Monday", time := "15:10",
     episode := "13", image := "https://cdn.myanimelist.net/images/anime/1736/143736.jpg",
     date := getDateForDay "Monday" today, trending := false, genre := "Romance" },
   { title := "Chitose Is in the Ramune Bottle", day := "Tuesday", time := "16:40",
     episode := "10", image := "https://cdn.myanimelist.net/images/anime/1741/143233.jpg",
     date := getDateForDay "Tuesday" today, trending := false, genre := "Romance, School" },
   { title := "Ninja vs. Gokudo", day := "Tuesday", time := "17:55", episode := "13",
     image := "https://cdn.myanimelist.net/images/anime/1522/144147.jpg",
     date := getDateForDay "Tuesday" today, trending := false, genre := "Action" },
   { title := "The Blue Orchestra Season 2", day := "Tuesday", time := "21:50",
     episode := "13", image := "https://cdn.myanimelist.net/images/anime/1796/143796.jpg",
     date := getDateForDay "Tuesday" today, trending := true, genre := "Music, Drama" },
   { title := "Forget That Night, Your Majesty", day := "Wednesday", time := "13:01",
     episode := "13", image := "https://cdn.myanimelist.net/images/anime/1926/143926.jpg",
     date := getDateForDay "Wednesday" today, trending := false, genre := "Romance, Fantasy" },
   { title := "Monster Strike: Deadverse Reloaded", day := "Wednesday", time := "14:44",
     episode := "5", image := "https://cdn.myanimelist.net/images/anime/1875/143875.jpg",
     date := getDateForDay "Wednesday" today, trending := false, genre := "Action" }]

/-! ### Retry/backoff loop (`AnimeDataScraper.scrapeAniwatch`)

One attempt of the fetch path either raises (network error, timeout,
non-2xx status, implausibly short body, or a parse that throws) or yields a
parsed entry list; the loop accepts only a non-empty parse and treats an
empty one as a failed attempt.  The environment is abstracted as an oracle
mapping `(proxyIndex, attempt)` to the attempt's outcome; the model returns
the produced data together with the number of attempts made, the total
milliseconds slept in backoff, and whether the fallback dataset was
substituted. -/

/-- The `MAX_RETRIES` constant of the scraper module. -/
def MAX_RETRIES : ℕ := 3

/-- The `INITIAL_DELAY` constant of the scraper module (milliseconds). -/
def INITIAL_DELAY : ℕ := 1000

/-- Embedding of `getBackoffDelay(attempt, baseDelay) = baseDelay * 2^attempt`. -/
def getBackoffDelay (attempt : ℕ) (baseDelay : ℕ) : ℕ := baseDelay * 2 ^ attempt

/-- Number of configured CORS proxy transports (`CORS_PROXIES.length`). -/
def numProxies : ℕ := 4

/-- Outcome of one fetch attempt: an exception before parsing, or a parsed
entry list. -/
inductive AttemptResult where
  | err : AttemptResult
  | ok : List AnimeData → AttemptResult
deriving DecidableEq

/-- Whether an attempt outcome is accepted by the loop (a parse with more
than zero entries). -/
def attemptAccepted : AttemptResult → Bool
  | .err => false
  | .ok l => 0 < l.length

/-- Milliseconds slept after a failed attempt: backoff applies only while
`attempt < MAX_RETRIES - 1`. -/
def failSleep (attempt : ℕ) : ℕ :=
  if attempt < MAX_RETRIES - 1 then getBackoffDelay attempt INITIAL_DELAY else 0

/-- The inner retry loop for one proxy over the given attempt indices:
returns the accepted data (if any), the attempts consumed, and the
milliseconds slept. -/
def tryAttempts (oracle : ℕ → ℕ → AttemptResult) (proxyIndex : ℕ) :
    List ℕ → Option (List AnimeData) × ℕ × ℕ
  | [] => (none, 0, 0)
  | a :: rest =>
      match oracle proxyIndex a with
      | .ok l =>
          if 0 < l.length then (some l, 1, 0)
          else
            let r := tryAttempts oracle proxyIndex rest
            (r.1, r.2.1 + 1, r.2.2 + failSleep a)
      | .err =>
          let r := tryAttempts oracle proxyIndex rest
          (r.1, r.2.1 + 1, r.2.2 + failSleep a)

/-- The outer loop over proxy indices. -/
def tryProxies (oracle : ℕ → ℕ → AttemptResult) :
    List ℕ → Option (List AnimeData) × ℕ × ℕ
  | [] => (none, 0, 0)
  | p :: rest =>
      let r := tryAttempts oracle p (List.range MAX_RETRIES)
      match r.1 with
      | some l => (some l, r.2.1, r.2.2)
      | none =>
          let r2 := tryProxies oracle rest
          (r2.1, r.2.1 + r2.2.1, r.2.2 + r2.2.2)

/-- Result of a `scrapeAniwatch` run: the entries returned, attempts made,
milliseconds slept in backoff, and whether the fallback dataset was used. -/
structure ScrapeRun where
  data : List AnimeData
  attempts : ℕ
  sleptMs : ℕ
  usedFallback : Bool

/-- Embedding of `AnimeDataScraper.scrapeAniwatch` under an attempt-outcome oracle. -/
def scrapeAniwatch (oracle : ℕ → ℕ → AttemptResult) (today : ℤ) : ScrapeRun :=
  let r := tryProxies oracle (List.range numProxies)
  match r.1 with
  | some l => { data := l, attempts := r.2.1, sleptMs := r.2.2, usedFallback := false }
  | none =>
      { data := getFallbackSchedule today, attempts := r.2.1, sleptMs := r.2.2,
        usedFallback := true }

/-! ### Change detector (`AnimeAutoScheduler.detectChanges`)

The JavaScript `Map` keyed by lowercased title is embedded as an
association list with unique keys; `Map.set` replaces in place or appends,
`Map.delete` removes, and iteration follows list order (JavaScript `Map`
iterates in insertion order).  The single `new Date()` captured at the
start of the comparison is the `now` parameter. -/

/-- The `type` field of a `ScheduleChange`. -/
inductive ChangeType where
  | isNew : ChangeType
  | time_change : ChangeType
  | delay : ChangeType
  | cancellation : ChangeType
  | episode_update : ChangeType
deriving DecidableEq, Repr

/-- The `ScheduleChange` interface of the auto-scheduler module
(`detectedAt` as an integer timestamp). -/
structure ScheduleChange where
  type : ChangeType
  anime : String
  details : String
  oldValue : Option String
  newValue : Option String
  detectedAt : ℤ
deriving DecidableEq, Repr

/-- A title-keyed map entry list; `Map.set` semantics. -/
def mapSet (m : List (String × AnimeData)) (k : String) (v : AnimeData) :
    List (String × AnimeData) :=
  if m.any (fun p => p.1 = k) then
    m.map (fun p => if p.1 = k then (k, v) else p)
  else
    m ++ [(k, v)]

/-- JavaScript `Map.get` semantics: the value at the key, if present. -/
def mapGet (m : List (String × AnimeData)) (k : String) : Option AnimeData :=
  (m.find? (fun p => p.1 = k)).map Prod.snd

/-- JavaScript `Map.delete` semantics. -/
def mapDelete (m : List (String × AnimeData)) (k : String) :
    List (String × AnimeData) :=
  m.filter (fun p => ¬ p.1 = k)

/-- The `yesterdayMap` built by inserting every entry of the previous
snapshot keyed by lowercased title, in list order. -/
def buildYesterdayMap (ys : List AnimeData) : List (String × AnimeData) :=
  ys.foldl (fun m a => mapSet m (jsToLower a.title) a) []

/-- The records pushed for one entry of today's scrape, together with the
updated lookup map. -/
def processTodayEntry (a : AnimeData) (m : List (String × AnimeData)) (now : ℤ) :
    List ScheduleChange × List (String × AnimeData) :=
  let key := jsToLower a.title
  match mapGet m key with
  | none =>
      ([{ type := .isNew, anime := a.title
          details := "New anime added to schedule: " ++ a.day ++ " at " ++ a.time ++ " JST"
          oldValue := none, newValue := none, detectedAt := now }], m)
  | some y =>
      let timeChanges : List ScheduleChange :=
        if a.time ≠ y.time then
          [{ type := .time_change, anime := a.title
             details := "Air time changed from " ++ y.time ++ " to " ++ a.time
             oldValue := some y.time, newValue := some a.time, detectedAt := now }]
        else []
      let dayChanges : List ScheduleChange :=
        if a.day ≠ y.day then
          [{ type := .delay, anime := a.title
             details := "Broadcast day changed from " ++ y.day ++ " to " ++ a.day
             oldValue := some y.day, newValue := some a.day, detectedAt := now }]
        else []
      let episodeChanges : List ScheduleChange :=
        if a.episode ≠ y.episode then
          [{ type := .episode_update, anime := a.title
             details := "Episode updated from " ++ y.episode ++ " to " ++ a.episode
             oldValue := some y.episode, newValue := some a.episode, detectedAt := now }]
        else []
      (timeChanges ++ dayChanges ++ episodeChanges, mapDelete m key)

/-- The loop over today's entries, threading the lookup map. -/
def detectLoop (now : ℤ) : List AnimeData → List (String × AnimeData) →
    List ScheduleChange × List (String × AnimeData)
  | [], m => ([], m)
  | a :: rest, m =>
      let r := processTodayEntry a m now
      let r2 := detectLoop now rest r.2
      (r.1 ++ r2.1, r2.2)

/-- The cancellation record for one entry left in the map. -/
def cancellationRecord (a : AnimeData) (now : ℤ) : ScheduleChange :=
  { type := .cancellation, anime := a.title
    details := "Anime removed from schedule (possible cancellation or season end)"
    oldValue := none, newValue := none, detectedAt := now }

/-- Embedding of `AnimeAutoScheduler.detectChanges`: diff today's scrape against
yesterday's, appending one cancellation per key left in the map. -/
def detectChanges (todayScrape yesterdayScrape : List AnimeData) (now : ℤ) :
    List ScheduleChange :=
  let m := buildYesterdayMap yesterdayScrape
  let r := detectLoop now todayScrape m
  r.1 ++ r.2.map (fun p => cancellationRecord p.2 now)

/-! ### Helper lemmas: day indices and the date helpers -/

theorem jsIndexOf_eq_neg_one {l : List String} {s : String} (h : s ∉ l) :
    jsIndexOf l s = -1 := by
  induction l with
  | nil => rfl
  | cons d rest ih =>
      have hd : ¬ d = s := fun hds => h (hds ▸ List.mem_cons_self d rest)
      have hr : s ∉ rest := fun hs => h (List.mem_cons_of_mem d hs)
      simp only [jsIndexOf, if_neg hd, ih hr]
      simp

theorem daysList_index_bounds {s : String} (h : s ∈ daysList) :
    0 ≤ jsIndexOf daysList s ∧ jsIndexOf daysList s < 7 := by
  fin_cases h <;> exact ⟨by decide, by decide⟩

/-- Characterization of `getDateForDay` on a recognized day name with index
`i`: the result is the date of weekday `i` within the reference date's
Sunday-started week. -/
theorem getDateForDay_eq_of_index {W : String} {i : ℤ} (D : ℤ)
    (hi : jsIndexOf daysList (normalizeDay W) = i) (h0 : 0 ≤ i) (h7 : i < 7) :
    getDateForDay W D = D - jsGetDay D + i ∧
    jsGetDay (getDateForDay W D) = i ∧
    D - 6 ≤ getDateForDay W D ∧ getDateForDay W D ≤ D + 6 ∧
    (jsGetDay D = i → getDateForDay W D = D) := by
  have hne : ¬ (i = -1) := by omega
  have hval : getDateForDay W D = D + (i - jsGetDay D) := by
    unfold getDateForDay
    rw [hi, if_neg hne]
  have hc : jsGetDay D = (D + 4) % 7 := rfl
  have hcb : 0 ≤ (D + 4) % 7 ∧ (D + 4) % 7 < 7 := by omega
  refine ⟨by omega, ?_, by omega, by omega, by omega⟩
  rw [hval]
  unfold jsGetDay
  omega

/-- C10: a day-name string that does not normalize to one of the seven
canonical weekday names makes `getDateForDay` return the reference date
itself (which the source then formats as an ISO date). -/
theorem getDateForDay_unresolved_day (d : String) (ref : ℤ)
    (h : normalizeDay d ∉ daysList) : getDateForDay d ref = ref := by
  unfold getDateForDay
  rw [jsIndexOf_eq_neg_one h, if_pos rfl]

/-- C10 witness: the day name "Unknown" is not canonical and resolves to
the reference date. -/
theorem getDateForDay_unresolved_day_witness :
    normalizeDay "Unknown" ∉ daysList ∧ getDateForDay "Unknown" 5 = 5 :=
  ⟨by decide, getDateForDay_unresolved_day "Unknown" 5 (by decide)⟩

/-- C1 counterexample: day 2 (1970-01-03) is a Saturday, "Sunday" is a
recognized day name, yet `getDateForDay "Sunday"` applied to that reference
returns day -4 (1969-12-28), strictly before the reference date — not the
next occurrence on/after it. -/
theorem getDateForDay_before_reference :
    jsGetDay 2 = 6 ∧ normalizeDay "Sunday" ∈ daysList ∧
    getDateForDay "Sunday" 2 = -4 ∧ getDateForDay "Sunday" 2 < 2 := by decide

/-- C1 amended: for a recognized weekday name `W` (with canonical index
`i`) and any reference date `D`, `getDateForDay` returns the date of
weekday `W` within `D`'s Sunday-started calendar week: its weekday is `i`,
it lies within 6 days of `D` on either side, and it equals `D` exactly when
`D`'s weekday is already `W`. -/
theorem getDateForDay_same_week (W : String) (D : ℤ)
    (h : normalizeDay W ∈ daysList) :
    getDateForDay W D = D - jsGetDay D + jsIndexOf daysList (normalizeDay W) ∧
    jsGetDay (getDateForDay W D) = jsIndexOf daysList (normalizeDay W) ∧
    D - 6 ≤ getDateForDay W D ∧ getDateForDay W D ≤ D + 6 ∧
    (jsGetDay D = jsIndexOf daysList (normalizeDay W) → getDateForDay W D = D) := by
  obtain ⟨h0, h7⟩ := daysList_index_bounds h
  exact getDateForDay_eq_of_index D rfl h0 h7

/-- C1 witness for the amended statement, at W = "Monday", D = 2 (a
Saturday): the result is day -2, the Monday of that week. -/
theorem getDateForDay_same_week_witness :
    normalizeDay "Monday" ∈ daysList ∧
    (getDateForDay "Monday" 2 = 2 - jsGetDay 2 + jsIndexOf daysList (normalizeDay "Monday") ∧
     jsGetDay (getDateForDay "Monday" 2) = jsIndexOf daysList (normalizeDay "Monday") ∧
     (2 : ℤ) - 6 ≤ getDateForDay "Monday" 2 ∧ getDateForDay "Monday" 2 ≤ 2 + 6 ∧
     (jsGetDay 2 = jsIndexOf daysList (normalizeDay "Monday") → getDateForDay "Monday" 2 = 2)) :=
  ⟨by decide, getDateForDay_same_week "Monday" 2 (by decide)⟩

/-! ### Claim C9: the parsed current episode -/

/-- Whether the label begins, after leading whitespace, with a minus sign
(the one way `parseInt` can produce a negative value). -/
def hasLeadingMinus (s : String) : Bool :=
  match s.toList.dropWhile (fun c => c.isWhitespace) with
  | [] => false
  | c :: _ => c = '-'

theorem signSplit_fst_eq_one {cs : List Char}
    (h : (match cs with | [] => false | c :: _ => (decide (c = '-') : Bool)) = false) :
    (signSplit cs).1 = 1 := by
  cases cs with
  | nil => rfl
  | cons c rest =>
      simp only [decide_eq_false_iff_not] at h
      simp only [signSplit]
      rw [if_neg h]
      by_cases hplus : c = '+'
      · rw [if_pos hplus]
      · rw [if_neg hplus]

theorem jsParseInt_nonneg {s : String} (h : hasLeadingMinus s = false)
    {n : ℤ} (hn : jsParseInt s = some n) : 0 ≤ n := by
  unfold hasLeadingMinus at h
  unfold jsParseInt at hn
  simp only at hn
  split at hn
  · have h1 : (signSplit (s.toList.dropWhile (fun c => c.isWhitespace))).1 = 1 :=
      signSplit_fst_eq_one h
    rw [h1, one_mul] at hn
    have := Option.some_injective _ hn
    omega
  · exact absurd hn (by simp)

/-- Entry whose episode label parses to a negative number, used to refute
the unconditional lower bound on `currentEpisode`. -/
def negativeLabelEntry : AnimeData :=
  { title := "Test Show", day := "Monday", time := "12:00", episode := "-5",
    image := "", date := 0, trending := false, genre := "Anime" }

/-- C9 counterexample: the episode label "-5" is parsed by
`parseInt(...) || 1` to -5, so the persisted record's `currentEpisode` is
-5, violating the claimed invariant `currentEpisode ≥ 1`. -/
theorem currentEpisode_negative_example :
    (buildScheduleDocument negativeLabelEntry 0).currentEpisode = -5 ∧
    ¬ (1 ≤ (buildScheduleDocument negativeLabelEntry 0).currentEpisode) := by
  constructor
  · rfl
  · decide

/-- C9 amended: for every entry whose episode label does not begin (after
leading whitespace) with a minus sign, the `currentEpisode` stored in the
persisted schedule document is an integer ≥ 1, and a label that does not
parse as a number at all defaults to episode 1.  (A label parsing to a
negative number — only possible with a leading minus sign — is stored
as that negative value, per the counterexample.) -/
theorem currentEpisode_positive (a : AnimeData) (today : ℤ)
    (h : hasLeadingMinus a.episode = false) :
    1 ≤ (buildScheduleDocument a today).currentEpisode ∧
    (jsParseInt a.episode = none → (buildScheduleDocument a today).currentEpisode = 1) := by
  have hcur : (buildScheduleDocument a today).currentEpisode = parseIntOr1 a.episode := rfl
  rw [hcur]
  constructor
  · cases hp : jsParseInt a.episode with
    | none => simp [parseIntOr1, hp]
    | some n =>
        have hnn := jsParseInt_nonneg h hp
        simp only [parseIntOr1, hp]
        by_cases hz : n = 0
        · rw [if_pos hz]
        · rw [if_neg hz]; omega
  · intro hp
    simp [parseIntOr1, hp]

/-- Entry with an ordinary numeric episode label, for the C9 witness. -/
def numericLabelEntry : AnimeData :=
  { title := "Test Show", day := "Monday", time := "12:00", episode := "7",
    image := "", date := 0, trending := false, genre := "Anime" }

/-- C9 witness: an ordinary numeric label "7" gives a current episode ≥ 1,
and `parseInt` does not return `NaN` on it (so the default clause is
vacuous there). -/
theorem currentEpisode_positive_witness :
    hasLeadingMinus numericLabelEntry.episode = false ∧
    (1 ≤ (buildScheduleDocument numericLabelEntry 0).currentEpisode ∧
     (jsParseInt numericLabelEntry.episode = none →
        (buildScheduleDocument numericLabelEntry 0).currentEpisode = 1)) :=
  ⟨by decide, currentEpisode_positive numericLabelEntry 0 (by decide)⟩

/-! ### Helper lemmas: the forecaster -/

theorem dayToNumber_bounds {s : String} {w : ℤ} (hw : dayToNumber s = some w) :
    0 ≤ w ∧ w < 7 := by
  simp only [dayToNumber, assocLookup] at hw
  split_ifs at hw <;> simp_all <;> omega

/-- For a recognized day name, the strictly-future offset used by
`calculateFutureDate` lands 1 to 7 days ahead, on the requested weekday. -/
theorem daysUntilNext_bounds {day : String} {w : ℤ} (hw : dayToNumber day = some w)
    (today : ℤ) :
    1 ≤ daysUntilNext day today ∧ daysUntilNext day today ≤ 7 ∧
    jsGetDay (today + daysUntilNext day today) = w := by
  obtain ⟨h0, h7⟩ := dayToNumber_bounds hw
  have hc : jsGetDay today = (today + 4) % 7 := rfl
  have hcb : 0 ≤ (today + 4) % 7 ∧ (today + 4) % 7 < 7 := by omega
  simp only [daysUntilNext, hw, Option.getD_some]
  rw [hc]
  split_ifs with hle <;>
    exact ⟨by omega, by omega, by unfold jsGetDay; omega⟩

/-- Normal form of the future schedule: a map over `List.range`, with the
date affine in the list index. -/
theorem autoScheduleEpisodes_eq (a : AnimeData) (today : ℤ) :
    autoScheduleEpisodes a today =
      (List.range
          (resolveTotalEpisodes a (parseIntOr1 a.episode) - parseIntOr1 a.episode).toNat).map
        (fun i =>
          { episode := parseIntOr1 a.episode + 1 + (i : ℤ)
            date := today + daysUntilNext a.day today + (i : ℤ) * 7
            airTime := a.time
            confirmed := false }) := by
  simp only [autoScheduleEpisodes, epRange, List.map_map]
  refine List.map_congr_left ?_
  intro i _
  simp only [Function.comp, ScheduledEpisode.mk.injEq]
  refine ⟨trivial, ?_, trivial, trivial⟩
  rw [calculateFutureDate_eq]
  ring

/-- C5: for every entry and reference date, the dates of consecutive
projected episodes are strictly increasing and differ by exactly 7 days. -/
theorem projectedDates_weekly (a : AnimeData) (today : ℤ) :
    List.Chain' (fun e1 e2 => e1.date < e2.date ∧ e2.date = e1.date + 7)
      (autoScheduleEpisodes a today) := by
  rw [autoScheduleEpisodes_eq, List.chain'_map]
  cases hn : (resolveTotalEpisodes a (parseIntOr1 a.episode) - parseIntOr1 a.episode).toNat with
  | zero => simp
  | succ n =>
      rw [List.chain'_range_succ]
      intro m hm
      constructor
      · push_cast; omega
      · push_cast; ring

/-- Modelled from the spec's words (for comparison with the code): the next
calendar occurrence of weekday `w` on/after date `d`, same-day counting as
current. -/
def specNextOnAfter (w d : ℤ) : ℤ := d + (w - jsGetDay d) % 7

/-- The spec-side next-occurrence function indeed returns the earliest date
on/after `d` with weekday `w`. -/
theorem specNextOnAfter_correct (w d : ℤ) (h0 : 0 ≤ w) (h7 : w < 7) :
    d ≤ specNextOnAfter w d ∧ specNextOnAfter w d ≤ d + 6 ∧
    jsGetDay (specNextOnAfter w d) = w ∧
    (jsGetDay d = w → specNextOnAfter w d = d) := by
  unfold specNextOnAfter jsGetDay
  refine ⟨by omega, by omega, by omega, by omega⟩

/-- Entry with an explicit enrichment count of 4 episodes, current episode
3, airing on Saturday: exactly one projected episode. -/
def fourEpisodeEntry : AnimeData :=
  { title := "Zeta Show", day := "Saturday", time := "10:00", episode := "3",
    image := "", date := 0, trending := false, genre := "Anime",
    totalEpisodes := some 4 }

/-- C3 counterexample: with reference date day 4 (Monday 1970-01-05), the
single projected episode (number 4, current episode 3) is dated day 9 — the
Saturday 5 days ahead — whereas the claim's formula, (4 − 3) = 1 week after
the on/after-next Saturday (day 9), demands day 16.  The code's dates are
one week earlier than claimed whenever the reference date's weekday differs
from the entry's day. -/
theorem autoSchedule_projection_counterexample :
    dayToNumber "Saturday" = some 6 ∧
    (autoScheduleEpisodes fourEpisodeEntry 4).map (fun e => (e.episode, e.date)) = [(4, 9)] ∧
    specNextOnAfter 6 4 = 9 ∧
    ((9 : ℤ) = specNextOnAfter 6 4 + ((4 : ℤ) - 3) * 7 → False) := by decide

/-- C3 amended: for every entry whose `dayOfWeek` is a canonical weekday
name (index `w`), the projected episodes are sorted strictly ascending by
episode number, and each episode's date is exactly
`(episodeNumber − currentEpisode − 1)` weeks after the first occurrence of
`dayOfWeek` strictly after the reference date (the unique such date `base`
with `today < base ≤ today + 7` and weekday `w`). -/
theorem autoSchedule_projection (a : AnimeData) (today w : ℤ)
    (hw : dayToNumber a.day = some w) :
    List.Pairwise (fun e1 e2 => e1.episode < e2.episode) (autoScheduleEpisodes a today) ∧
    ∃ base, today < base ∧ base ≤ today + 7 ∧ jsGetDay base = w ∧
      ∀ e ∈ autoScheduleEpisodes a today,
        e.date = base + (e.episode - parseIntOr1 a.episode - 1) * 7 := by
  obtain ⟨hb1, hb7, hbw⟩ := daysUntilNext_bounds hw today
  constructor
  · rw [autoScheduleEpisodes_eq, List.pairwise_map]
    refine List.Pairwise.imp ?_ (List.pairwise_lt_range _)
    intro i j hij
    simp only []
    omega
  · refine ⟨today + daysUntilNext a.day today, by omega, by omega, hbw, ?_⟩
    intro e he
    rw [autoScheduleEpisodes_eq] at he
    obtain ⟨i, _, rfl⟩ := List.mem_map.1 he
    simp only []
    ring

/-- C3 witness for the amended statement, at the four-episode Saturday
entry and reference date 4. -/
theorem autoSchedule_projection_witness :
    dayToNumber fourEpisodeEntry.day = some 6 ∧
    (List.Pairwise (fun e1 e2 => e1.episode < e2.episode)
        (autoScheduleEpisodes fourEpisodeEntry 4) ∧
     ∃ base, (4 : ℤ) < base ∧ base ≤ 4 + 7 ∧ jsGetDay base = 6 ∧
       ∀ e ∈ autoScheduleEpisodes fourEpisodeEntry 4,
         e.date = base + (e.episode - parseIntOr1 fourEpisodeEntry.episode - 1) * 7) :=
  ⟨by decide, autoSchedule_projection fourEpisodeEntry 4 6 (by decide)⟩

/-! ### Claim C2: the "Kingdom" scenario -/

/-- The scenario entry: title "Kingdom", current episode label "3",
Saturday at 18:00, no enrichment episode count.  The remaining fields are
irrelevant to the forecaster. -/
def kingdomEntry : AnimeData :=
  { title := "Kingdom", day := "Saturday", time := "18:00", episode := "3",
    image := "", date := 0, trending := false, genre := "Anime" }

/-- C2 counterexample: "Kingdom" matches the two-cour curated list, so
`estimateTotalEpisodes` returns 24 (not the default 12-episode bucket) and
`autoScheduleEpisodes` projects 21 episodes, not 9. -/
theorem kingdom_bucket_counterexample :
    estimateTotalEpisodes "Kingdom" 3 = 24 ∧
    (autoScheduleEpisodes kingdomEntry 0).length = 21 ∧
    ((autoScheduleEpisodes kingdomEntry 0).length = 9 → False) := by
  refine ⟨by decide, rfl, ?_⟩
  intro h
  rw [show (autoScheduleEpisodes kingdomEntry 0).length = 21 from rfl] at h
  exact absurd h (by decide)

/-- C2 amended: the "Kingdom" entry is classified into the two-cour
24-episode bucket, so for every reference date `autoScheduleEpisodes`
returns exactly 21 projected episodes numbered 4 through 24, with episode 4
dated at the next Saturday strictly after the reference date and episode 24
dated 20 weeks after episode 4. -/
theorem kingdom_schedule (today : ℤ) :
    (autoScheduleEpisodes kingdomEntry today).map (fun e => e.episode) =
      [4, 5, 6, 7, 8, 9, 10, 11, 12, 13, 14, 15, 16, 17, 18, 19, 20, 21, 22, 23, 24] ∧
    ∃ d4,
      (autoScheduleEpisodes kingdomEntry today).head? =
        some { episode := 4, date := d4, airTime := "18:00", confirmed := false } ∧
      today < d4 ∧ d4 ≤ today + 7 ∧ jsGetDay d4 = 6 ∧
      ((autoScheduleEpisodes kingdomEntry today).getLast?).map (fun e => e.date) =
        some (d4 + 140) := by
  have hw : dayToNumber kingdomEntry.day = some 6 := by decide
  obtain ⟨hb1, hb7, hbw⟩ := daysUntilNext_bounds hw today
  have hN : (resolveTotalEpisodes kingdomEntry (parseIntOr1 kingdomEntry.episode) -
      parseIntOr1 kingdomEntry.episode).toNat = 21 := by decide
  rw [autoScheduleEpisodes_eq, hN]
  constructor
  · rw [List.map_map]
    rfl
  · refine ⟨today + daysUntilNext kingdomEntry.day today, ?_, by omega, by omega, hbw, ?_⟩
    · rw [List.head?_map, show (List.range 21).head? = some 0 from rfl,
        Option.map_some']
      simp only [Option.some.injEq, ScheduledEpisode.mk.injEq]
      exact ⟨by decide, by push_cast; ring, rfl, trivial⟩
    · rw [List.getLast?_map, show (List.range 21).getLast? = some 20 from by decide,
        Option.map_some', Option.map_some']
      simp only [Option.some.injEq]
      push_cast
      ring

/-! ### Claims C6 and C7: retry bounds and fallback substitution -/

theorem tryAttempts_bounds (oracle : ℕ → ℕ → AttemptResult) (p : ℕ) (as : List ℕ) :
    (tryAttempts oracle p as).2.1 ≤ as.length ∧
    (tryAttempts oracle p as).2.2 ≤ (as.map failSleep).sum := by
  induction as with
  | nil => exact ⟨Nat.le_refl 0, Nat.le_refl 0⟩
  | cons a rest ih =>
      obtain ⟨ih1, ih2⟩ := ih
      simp only [tryAttempts, List.length_cons, List.map_cons, List.sum_cons]
      constructor <;>
      · split
        · split
          all_goals dsimp only
          all_goals omega
        · dsimp only
          omega

theorem tryAttempts_range_bounds (oracle : ℕ → ℕ → AttemptResult) (p : ℕ) :
    (tryAttempts oracle p (List.range MAX_RETRIES)).2.1 ≤ 3 ∧
    (tryAttempts oracle p (List.range MAX_RETRIES)).2.2 ≤ 3000 := by
  obtain ⟨h1, h2⟩ := tryAttempts_bounds oracle p (List.range MAX_RETRIES)
  have hl : (List.range MAX_RETRIES).length = 3 := by decide
  have hs : ((List.range MAX_RETRIES).map failSleep).sum = 3000 := by decide
  omega

theorem tryProxies_bounds (oracle : ℕ → ℕ → AttemptResult) (ps : List ℕ) :
    (tryProxies oracle ps).2.1 ≤ ps.length * 3 ∧
    (tryProxies oracle ps).2.2 ≤ ps.length * 7000 := by
  induction ps with
  | nil => exact ⟨Nat.le_refl 0, Nat.le_refl 0⟩
  | cons p rest ih =>
      obtain ⟨ih1, ih2⟩ := ih
      obtain ⟨ha, hs⟩ := tryAttempts_range_bounds oracle p
      simp only [tryProxies, List.length_cons]
      constructor <;>
      · split
        all_goals dsimp only
        all_goals omega

/-- C6: every run of the fetch path makes at most
`transports × MAX_RETRIES = 12` attempts, and the total backoff sleep is at
most `transports × baseDelay × (2^MAX_RETRIES − 1) = 28000` ms. -/
theorem scrape_retry_bound (oracle : ℕ → ℕ → AttemptResult) (today : ℤ) :
    (scrapeAniwatch oracle today).attempts ≤ numProxies * MAX_RETRIES ∧
    (scrapeAniwatch oracle today).sleptMs ≤
      numProxies * (INITIAL_DELAY * (2 ^ MAX_RETRIES - 1)) := by
  obtain ⟨ha, hs⟩ := tryProxies_bounds oracle (List.range numProxies)
  rw [List.length_range] at ha hs
  have h1 : numProxies * MAX_RETRIES = 12 := rfl
  have h2 : numProxies * (INITIAL_DELAY * (2 ^ MAX_RETRIES - 1)) = 28000 := by decide
  have h3 : numProxies = 4 := rfl
  simp only [scrapeAniwatch]
  constructor <;>
  · split
    all_goals dsimp only
    all_goals omega

theorem tryAttempts_none (oracle : ℕ → ℕ → AttemptResult) (p : ℕ) (as : List ℕ)
    (h : ∀ i, attemptAccepted (oracle p i) = false) :
    (tryAttempts oracle p as).1 = none := by
  induction as with
  | nil => rfl
  | cons a rest ih =>
      simp only [tryAttempts]
      split
      · next l heq =>
          have ha := h a
          rw [heq] at ha
          simp only [attemptAccepted, decide_eq_false_iff_not] at ha
          rw [if_neg ha]
          exact ih
      · exact ih

theorem tryProxies_none (oracle : ℕ → ℕ → AttemptResult) (ps : List ℕ)
    (h : ∀ p a, attemptAccepted (oracle p a) = false) :
    (tryProxies oracle ps).1 = none := by
  induction ps with
  | nil => rfl
  | cons p rest ih =>
      simp only [tryProxies]
      rw [tryAttempts_none oracle p _ (h p)]
      exact ih

/-- C7: if every transport fails every retry (no attempt is accepted),
`scrapeAniwatch` does not raise: it returns exactly the fallback dataset\'s
entries, a non-empty list, flagged as the fallback path. -/
theorem scrape_all_fail_fallback (oracle : ℕ → ℕ → AttemptResult) (today : ℤ)
    (h : ∀ p a, attemptAccepted (oracle p a) = false) :
    (scrapeAniwatch oracle today).data = getFallbackSchedule today ∧
    (scrapeAniwatch oracle today).data ≠ [] ∧
    (scrapeAniwatch oracle today).usedFallback = true := by
  have hn : (tryProxies oracle (List.range numProxies)).1 = none :=
    tryProxies_none oracle _ h
  simp only [scrapeAniwatch]
  rw [hn]
  exact ⟨rfl, by simp [getFallbackSchedule], rfl⟩

/-- Oracle on which every attempt raises, for the C7 witness. -/
def alwaysErrOracle : ℕ → ℕ → AttemptResult := fun _ _ => AttemptResult.err

/-- C7 witness: the always-failing oracle at reference date 0. -/
theorem scrape_all_fail_fallback_witness :
    (∀ p a, attemptAccepted (alwaysErrOracle p a) = false) ∧
    ((scrapeAniwatch alwaysErrOracle 0).data = getFallbackSchedule 0 ∧
     (scrapeAniwatch alwaysErrOracle 0).data ≠ [] ∧
     (scrapeAniwatch alwaysErrOracle 0).usedFallback = true) :=
  ⟨fun _ _ => rfl, scrape_all_fail_fallback alwaysErrOracle 0 (fun _ _ => rfl)⟩

/-! ### Claim C8: the change detector ignores the clock except `detectedAt` -/

/-- The fields of a change record other than `detectedAt`. -/
def changeCore (c : ScheduleChange) :
    ChangeType × String × String × Option String × Option String :=
  (c.type, c.anime, c.details, c.oldValue, c.newValue)

theorem processTodayEntry_core (a : AnimeData) (m : List (String × AnimeData)) (n1 n2 : ℤ) :
    (processTodayEntry a m n1).1.map changeCore = (processTodayEntry a m n2).1.map changeCore ∧
    (processTodayEntry a m n1).2 = (processTodayEntry a m n2).2 := by
  cases h : mapGet m (jsToLower a.title) with
  | none =>
      simp only [processTodayEntry, h]
      constructor <;> first | rfl | trivial
  | some y =>
      simp only [processTodayEntry, h]
      refine ⟨?_, by first | rfl | trivial⟩
      split_ifs <;> rfl

theorem detectLoop_core (ts : List AnimeData) (m : List (String × AnimeData)) (n1 n2 : ℤ) :
    (detectLoop n1 ts m).1.map changeCore = (detectLoop n2 ts m).1.map changeCore ∧
    (detectLoop n1 ts m).2 = (detectLoop n2 ts m).2 := by
  induction ts generalizing m with
  | nil => exact ⟨rfl, rfl⟩
  | cons a rest ih =>
      obtain ⟨hp1, hp2⟩ := processTodayEntry_core a m n1 n2
      obtain ⟨hl1, hl2⟩ := ih ((processTodayEntry a m n1).2)
      simp only [detectLoop]
      constructor
      · rw [List.map_append, List.map_append, hp1, hl1, hp2]
      · rw [hl2, hp2]

/-- C8: running `detectChanges` twice on the same `(current, previous)`
pair yields the same records — same kinds, titles, details, old/new values,
in the same order — regardless of the captured `now` clock; only
`detectedAt` can differ. -/
theorem detectChanges_time_independent (ts ys : List AnimeData) (n1 n2 : ℤ) :
    (detectChanges ts ys n1).map changeCore = (detectChanges ts ys n2).map changeCore := by
  obtain ⟨h1, h2⟩ := detectLoop_core ts (buildYesterdayMap ys) n1 n2
  simp only [detectChanges]
  rw [List.map_append, List.map_append, h1, h2, List.map_map, List.map_map]
  rfl

/-! ### Claim C4: diff completeness -/

/-- The lowercased titles of a snapshot, in order (the diff's key space). -/
def lowerTitles (l : List AnimeData) : List String := l.map (fun a => jsToLower a.title)

/-- The keys of a title-keyed map. -/
def mapKeys (m : List (String × AnimeData)) : List String := m.map Prod.fst

/-- Number of `new` records for the (lowercased) title `t`. -/
def countNew (cs : List ScheduleChange) (t : String) : ℕ :=
  cs.countP (fun c => decide (c.type = ChangeType.isNew ∧ jsToLower c.anime = t))

/-- Number of `cancellation` records for the (lowercased) title `t`. -/
def countCancel (cs : List ScheduleChange) (t : String) : ℕ :=
  cs.countP (fun c => decide (c.type = ChangeType.cancellation ∧ jsToLower c.anime = t))

theorem countNew_append (cs ds : List ScheduleChange) (t : String) :
    countNew (cs ++ ds) t = countNew cs t + countNew ds t :=
  List.countP_append _ _ _

theorem countCancel_append (cs ds : List ScheduleChange) (t : String) :
    countCancel (cs ++ ds) t = countCancel cs t + countCancel ds t :=
  List.countP_append _ _ _

/-- Every map key/value pair built by the detector satisfies
`key = jsToLower value.title`. -/
def keyInv (m : List (String × AnimeData)) : Prop :=
  ∀ p ∈ m, jsToLower p.2.title = p.1

theorem mapGet_eq_none {m : List (String × AnimeData)} {k : String} :
    mapGet m k = none ↔ k ∉ mapKeys m := by
  unfold mapGet mapKeys
  rw [Option.map_eq_none', List.find?_eq_none]
  simp only [List.mem_map, decide_eq_true_eq, Prod.exists, Prod.forall, not_exists, not_and]

theorem mapKeys_set_of_present {m : List (String × AnimeData)} {k : String}
    (v : AnimeData) (h : m.any (fun p => p.1 = k)) :
    mapKeys (mapSet m k v) = mapKeys m := by
  unfold mapSet mapKeys
  rw [if_pos h, List.map_map]
  refine List.map_congr_left ?_
  intro p _
  by_cases hp : p.1 = k
  · simp [hp]
  · simp [hp]

theorem mapKeys_set_of_absent {m : List (String × AnimeData)} {k : String}
    (v : AnimeData) (h : ¬ m.any (fun p => p.1 = k)) :
    mapKeys (mapSet m k v) = mapKeys m ++ [k] := by
  unfold mapSet mapKeys
  rw [if_neg h, List.map_append]
  rfl

theorem any_key_iff {m : List (String × AnimeData)} {k : String} :
    m.any (fun p => p.1 = k) = true ↔ k ∈ mapKeys m := by
  rw [List.any_eq_true]
  unfold mapKeys
  simp [List.mem_map, eq_comm]

theorem mem_mapKeys_set {m : List (String × AnimeData)} {k t : String} (v : AnimeData) :
    t ∈ mapKeys (mapSet m k v) ↔ t ∈ mapKeys m ∨ t = k := by
  by_cases h : m.any (fun p => p.1 = k)
  · rw [mapKeys_set_of_present v h]
    have hk : k ∈ mapKeys m := any_key_iff.mp h
    constructor
    · exact Or.inl
    · rintro (ht | rfl)
      · exact ht
      · exact hk
  · rw [mapKeys_set_of_absent v h]
    simp

theorem nodup_mapKeys_set {m : List (String × AnimeData)} {k : String} (v : AnimeData)
    (hnd : (mapKeys m).Nodup) : (mapKeys (mapSet m k v)).Nodup := by
  by_cases h : m.any (fun p => p.1 = k)
  · rw [mapKeys_set_of_present v h]; exact hnd
  · rw [mapKeys_set_of_absent v h]
    have hk : k ∉ mapKeys m := fun hmem => h (any_key_iff.mpr hmem)
    simp [List.Nodup, List.pairwise_append]
    exact ⟨hnd, fun x hx hxk => hk (hxk ▸ hx)⟩

theorem keyInv_set {m : List (String × AnimeData)} (v : AnimeData)
    (hinv : keyInv m) : keyInv (mapSet m (jsToLower v.title) v) := by
  unfold mapSet
  split_ifs with h
  · intro p hp
    obtain ⟨q, hq, rfl⟩ := List.mem_map.1 hp
    by_cases hqk : q.1 = jsToLower v.title
    · simp [hqk]
    · simpa [hqk] using hinv q hq
  · intro p hp
    rcases List.mem_append.1 hp with hq | hq
    · exact hinv p hq
    · rcases List.mem_singleton.1 hq with rfl
      rfl

theorem mem_mapKeys_delete {m : List (String × AnimeData)} {k t : String} :
    t ∈ mapKeys (mapDelete m k) ↔ t ∈ mapKeys m ∧ t ≠ k := by
  unfold mapDelete mapKeys
  simp only [List.mem_map, List.mem_filter]
  constructor
  · rintro ⟨p, ⟨hp, hpk⟩, rfl⟩
    exact ⟨⟨p, hp, rfl⟩, by simpa using hpk⟩
  · rintro ⟨⟨p, hp, rfl⟩, htk⟩
    exact ⟨p, ⟨hp, by simpa using htk⟩, rfl⟩

theorem nodup_mapKeys_delete {m : List (String × AnimeData)} {k : String}
    (hnd : (mapKeys m).Nodup) : (mapKeys (mapDelete m k)).Nodup :=
  ((List.filter_sublist m).map Prod.fst).nodup hnd

theorem keyInv_delete {m : List (String × AnimeData)} {k : String}
    (hinv : keyInv m) : keyInv (mapDelete m k) := by
  intro p hp
  exact hinv p (List.mem_filter.1 hp).1

theorem buildYesterdayMap_props (ys : List AnimeData) :
    (mapKeys (buildYesterdayMap ys)).Nodup ∧ keyInv (buildYesterdayMap ys) ∧
    ∀ t, t ∈ mapKeys (buildYesterdayMap ys) ↔ t ∈ lowerTitles ys := by
  have main : ∀ (l : List AnimeData) (m0 : List (String × AnimeData)),
      (mapKeys m0).Nodup → keyInv m0 →
      (mapKeys (l.foldl (fun m a => mapSet m (jsToLower a.title) a) m0)).Nodup ∧
      keyInv (l.foldl (fun m a => mapSet m (jsToLower a.title) a) m0) ∧
      ∀ t, t ∈ mapKeys (l.foldl (fun m a => mapSet m (jsToLower a.title) a) m0) ↔
        t ∈ mapKeys m0 ∨ t ∈ lowerTitles l := by
    intro l
    induction l with
    | nil => intro m0 h1 h2; exact ⟨h1, h2, fun t => by simp [lowerTitles]⟩
    | cons a rest ih =>
        intro m0 h1 h2
        simp only [List.foldl_cons]
        obtain ⟨g1, g2, g3⟩ :=
          ih (mapSet m0 (jsToLower a.title) a) (nodup_mapKeys_set a h1) (keyInv_set a h2)
        refine ⟨g1, g2, fun t => ?_⟩
        rw [g3 t, mem_mapKeys_set]
        simp only [lowerTitles, List.map_cons, List.mem_cons]
        tauto
  obtain ⟨h1, h2, h3⟩ := main ys [] (by simp [mapKeys]) (by intro p hp; cases hp)
  exact ⟨h1, h2, fun t => by rw [buildYesterdayMap, h3 t]; simp [mapKeys]⟩

theorem processTodayEntry_snd_of_none {a : AnimeData} {m : List (String × AnimeData)}
    (now : ℤ) (h : mapGet m (jsToLower a.title) = none) :
    (processTodayEntry a m now).2 = m := by
  simp [processTodayEntry, h]

theorem processTodayEntry_snd_of_some {a : AnimeData} {m : List (String × AnimeData)}
    {y : AnimeData} (now : ℤ) (h : mapGet m (jsToLower a.title) = some y) :
    (processTodayEntry a m now).2 = mapDelete m (jsToLower a.title) := by
  simp [processTodayEntry, h]

theorem detectLoop_snd (now : ℤ) (a : AnimeData) (rest : List AnimeData)
    (m : List (String × AnimeData)) :
    (detectLoop now (a :: rest) m).2 = (detectLoop now rest (processTodayEntry a m now).2).2 := rfl

theorem detectLoop_fst (now : ℤ) (a : AnimeData) (rest : List AnimeData)
    (m : List (String × AnimeData)) :
    (detectLoop now (a :: rest) m).1 =
      (processTodayEntry a m now).1 ++ (detectLoop now rest (processTodayEntry a m now).2).1 := rfl

/-- Key evolution of the loop: a key survives to the final map exactly when
it was present initially and no entry of today's scrape carries it. -/
theorem detectLoop_keys (now : ℤ) (ts : List AnimeData) (m : List (String × AnimeData))
    (t : String) :
    t ∈ mapKeys (detectLoop now ts m).2 ↔ t ∈ mapKeys m ∧ t ∉ lowerTitles ts := by
  induction ts generalizing m with
  | nil => simp [detectLoop, lowerTitles]
  | cons a rest ih =>
      rw [detectLoop_snd, ih]
      cases h : mapGet m (jsToLower a.title) with
      | none =>
          rw [processTodayEntry_snd_of_none now h]
          have hk : jsToLower a.title ∉ mapKeys m := mapGet_eq_none.mp h
          simp only [lowerTitles, List.map_cons, List.mem_cons]
          constructor
          · rintro ⟨hm, hr⟩
            exact ⟨hm, fun hor => hor.elim (fun heq => hk (heq ▸ hm)) hr⟩
          · rintro ⟨hm, hor⟩
            exact ⟨hm, fun hr => hor (Or.inr hr)⟩
      | some y =>
          rw [processTodayEntry_snd_of_some now h, mem_mapKeys_delete]
          simp only [lowerTitles, List.map_cons, List.mem_cons]
          tauto

theorem detectLoop_nodup_inv (now : ℤ) (ts : List AnimeData)
    (m : List (String × AnimeData)) (hnd : (mapKeys m).Nodup) (hinv : keyInv m) :
    (mapKeys (detectLoop now ts m).2).Nodup ∧ keyInv (detectLoop now ts m).2 := by
  induction ts generalizing m with
  | nil => exact ⟨hnd, hinv⟩
  | cons a rest ih =>
      rw [detectLoop_snd]
      cases h : mapGet m (jsToLower a.title) with
      | none =>
          rw [processTodayEntry_snd_of_none now h]
          exact ih m hnd hinv
      | some y =>
          rw [processTodayEntry_snd_of_some now h]
          exact ih _ (nodup_mapKeys_delete hnd) (keyInv_delete hinv)

theorem countCancel_processTodayEntry (a : AnimeData) (m : List (String × AnimeData))
    (now : ℤ) (t : String) :
    countCancel (processTodayEntry a m now).1 t = 0 := by
  cases h : mapGet m (jsToLower a.title) with
  | none => simp only [processTodayEntry, h]; rfl
  | some y =>
      simp only [processTodayEntry, h, countCancel, List.countP_append]
      split_ifs <;> rfl

theorem countNew_processTodayEntry (a : AnimeData) (m : List (String × AnimeData))
    (now : ℤ) (t : String) :
    countNew (processTodayEntry a m now).1 t =
      if mapGet m (jsToLower a.title) = none ∧ jsToLower a.title = t then 1 else 0 := by
  cases h : mapGet m (jsToLower a.title) with
  | none =>
      simp only [processTodayEntry, h, countNew, List.countP_cons, List.countP_nil]
      by_cases hk : jsToLower a.title = t
      · simp [hk]
      · simp [hk]
  | some y =>
      simp only [processTodayEntry, h, countNew, List.countP_append]
      have : ¬ (some y = none ∧ jsToLower a.title = t) := by simp
      rw [if_neg this]
      split_ifs <;> rfl

theorem detectLoop_countCancel (now : ℤ) (ts : List AnimeData)
    (m : List (String × AnimeData)) (t : String) :
    countCancel (detectLoop now ts m).1 t = 0 := by
  induction ts generalizing m with
  | nil => rfl
  | cons a rest ih =>
      rw [detectLoop_fst, countCancel_append, countCancel_processTodayEntry, ih]

theorem detectLoop_countNew (now : ℤ) (ts : List AnimeData)
    (m : List (String × AnimeData)) (t : String) (hnd : (lowerTitles ts).Nodup) :
    countNew (detectLoop now ts m).1 t =
      if t ∈ lowerTitles ts ∧ t ∉ mapKeys m then 1 else 0 := by
  induction ts generalizing m with
  | nil => simp [detectLoop, countNew, lowerTitles]
  | cons a rest ih =>
      have hnd2 : jsToLower a.title ∉ lowerTitles rest ∧ (lowerTitles rest).Nodup := by
        simpa [lowerTitles, List.nodup_cons] using hnd
      rw [detectLoop_fst, countNew_append, countNew_processTodayEntry]
      cases h : mapGet m (jsToLower a.title) with
      | none =>
          rw [processTodayEntry_snd_of_none now h, ih m hnd2.2]
          have hk : jsToLower a.title ∉ mapKeys m := mapGet_eq_none.mp h
          simp only [h, eq_self_iff_true, true_and]
          by_cases hkt : jsToLower a.title = t
          · subst hkt
            rw [if_pos rfl, if_neg (fun hc => hnd2.1 hc.1),
              if_pos ⟨by simp [lowerTitles], hk⟩]
          · rw [if_neg hkt]
            have hmem : t ∈ lowerTitles (a :: rest) ↔ t ∈ lowerTitles rest := by
              simp only [lowerTitles, List.map_cons, List.mem_cons]
              exact or_iff_right (fun he => hkt he.symm)
            simp only [hmem]
            split_ifs <;> rfl
      | some y =>
          rw [processTodayEntry_snd_of_some now h, ih _ hnd2.2]
          have hk : jsToLower a.title ∈ mapKeys m := by
            by_contra hk
            exact absurd (mapGet_eq_none.mpr hk) (by simp [h])
          rw [if_neg (by simp [h])]
          simp only [mem_mapKeys_delete]
          by_cases hkt : jsToLower a.title = t
          · subst hkt
            rw [if_neg (fun hc => hnd2.1 hc.1), if_neg (fun hc => hc.2 hk)]
          · have htk : t ≠ jsToLower a.title := fun he => hkt he.symm
            have hc2 : (t ∈ lowerTitles rest ∧
                ¬(t ∈ mapKeys m ∧ t ≠ jsToLower a.title)) ↔
                (t ∈ lowerTitles rest ∧ t ∉ mapKeys m) := by
              constructor
              · rintro ⟨h1, h2⟩
                exact ⟨h1, fun hm => h2 ⟨hm, htk⟩⟩
              · rintro ⟨h1, h2⟩
                exact ⟨h1, fun hc => h2 hc.1⟩
            have hmem : t ∈ lowerTitles (a :: rest) ↔ t ∈ lowerTitles rest := by
              simp only [lowerTitles, List.map_cons, List.mem_cons]
              exact or_iff_right (fun he => hkt he.symm)
            simp only [hc2, hmem]
            split_ifs <;> rfl

theorem countCancel_cancellations (m : List (String × AnimeData)) (now : ℤ) (t : String)
    (hnd : (mapKeys m).Nodup) (hinv : keyInv m) :
    countCancel (m.map (fun p => cancellationRecord p.2 now)) t =
      if t ∈ mapKeys m then 1 else 0 := by
  induction m with
  | nil => simp [countCancel, mapKeys]
  | cons p rest ih =>
      have hnd2 : p.1 ∉ mapKeys rest ∧ (mapKeys rest).Nodup := by
        simpa [mapKeys, List.nodup_cons] using hnd
      have hinv2 : keyInv rest := fun q hq => hinv q (List.mem_cons_of_mem _ hq)
      have hp1 : jsToLower p.2.title = p.1 := hinv p (List.mem_cons_self _ _)
      simp only [List.map_cons, countCancel, List.countP_cons]
      rw [show List.countP
            (fun c => decide (c.type = ChangeType.cancellation ∧ jsToLower c.anime = t))
            (rest.map (fun p => cancellationRecord p.2 now)) =
          countCancel (rest.map (fun p => cancellationRecord p.2 now)) t from rfl,
        ih hnd2.2 hinv2]
      simp only [cancellationRecord, decide_eq_true_eq, hp1, eq_self_iff_true, true_and]
      have hcons : t ∈ mapKeys (p :: rest) ↔ t = p.1 ∨ t ∈ mapKeys rest := by
        simp [mapKeys]
      by_cases hpt : p.1 = t
      · subst hpt
        rw [if_neg hnd2.1, if_pos rfl, if_pos (hcons.mpr (Or.inl rfl))]
      · rw [if_neg hpt]
        have hmem : t ∈ mapKeys (p :: rest) ↔ t ∈ mapKeys rest := by
          rw [hcons]
          exact or_iff_right (fun he => hpt he.symm)
        simp only [hmem]
        split_ifs <;> rfl

theorem countNew_cancellations (m : List (String × AnimeData)) (now : ℤ) (t : String) :
    countNew (m.map (fun p => cancellationRecord p.2 now)) t = 0 := by
  rw [countNew, List.countP_eq_zero]
  intro c hc
  obtain ⟨p, _, rfl⟩ := List.mem_map.1 hc
  simp [cancellationRecord]

/-- C4 counterexample: a current snapshot holding the same title twice
(not present in the previous snapshot) receives two `new` records for that
title, not exactly one. -/
def dupEntry : AnimeData :=
  { title := "Show X", day := "Friday", time := "21:00", episode := "5",
    image := "", date := 0, trending := false, genre := "Anime" }

/-- C4 counterexample: with current = [dupEntry, dupEntry] and previous
empty, the title "show x" is present (case-insensitively) in the current
snapshot and absent from the previous one, yet `detectChanges` emits two
`new` records for it — refuting "exactly one new record". -/
theorem detectChanges_duplicate_new :
    lowerTitles [dupEntry, dupEntry] = ["show x", "show x"] ∧
    "show x" ∉ lowerTitles ([] : List AnimeData) ∧
    countNew (detectChanges [dupEntry, dupEntry] [] 0) "show x" = 2 := by decide

/-- C4 amended: provided no two entries of the current snapshot share the
same lowercased title, every title present (case-insensitively) in the
previous snapshot but absent from the current one yields exactly one
cancellation record, every title present in the current snapshot but absent
from the previous one yields exactly one new record, and no title yields
both kinds in the same batch. -/
theorem detectChanges_diff_complete (ts ys : List AnimeData) (now : ℤ) (t : String)
    (hnd : (lowerTitles ts).Nodup) :
    (t ∈ lowerTitles ys ∧ t ∉ lowerTitles ts →
       countCancel (detectChanges ts ys now) t = 1) ∧
    (t ∈ lowerTitles ts ∧ t ∉ lowerTitles ys →
       countNew (detectChanges ts ys now) t = 1) ∧
    ¬ (1 ≤ countNew (detectChanges ts ys now) t ∧
       1 ≤ countCancel (detectChanges ts ys now) t) := by
  obtain ⟨hbn, hbi, hbm⟩ := buildYesterdayMap_props ys
  obtain ⟨hrn, hri⟩ := detectLoop_nodup_inv now ts (buildYesterdayMap ys) hbn hbi
  have hchange : detectChanges ts ys now =
      (detectLoop now ts (buildYesterdayMap ys)).1 ++
        ((detectLoop now ts (buildYesterdayMap ys)).2.map
          (fun p => cancellationRecord p.2 now)) := rfl
  have hcancel : countCancel (detectChanges ts ys now) t =
      if t ∈ mapKeys (detectLoop now ts (buildYesterdayMap ys)).2 then 1 else 0 := by
    rw [hchange, countCancel_append, detectLoop_countCancel,
      countCancel_cancellations _ now t hrn hri, Nat.zero_add]
  have hnew : countNew (detectChanges ts ys now) t =
      if t ∈ lowerTitles ts ∧ t ∉ mapKeys (buildYesterdayMap ys) then 1 else 0 := by
    rw [hchange, countNew_append, detectLoop_countNew now ts _ t hnd,
      countNew_cancellations, Nat.add_zero]
  have hkeys := detectLoop_keys now ts (buildYesterdayMap ys) t
  refine ⟨?_, ?_, ?_⟩
  · rintro ⟨hy, hnt⟩
    rw [hcancel, if_pos (hkeys.mpr ⟨(hbm t).mpr hy, hnt⟩)]
  · rintro ⟨ht, hny⟩
    rw [hnew, if_pos ⟨ht, fun hm => hny ((hbm t).mp hm)⟩]
  · rintro ⟨h1, h2⟩
    rw [hnew] at h1
    rw [hcancel] at h2
    by_cases hc : t ∈ lowerTitles ts ∧ t ∉ mapKeys (buildYesterdayMap ys)
    · rw [if_neg (fun hk => hc.2 (hkeys.mp hk).1)] at h2
      omega
    · rw [if_neg hc] at h1
      omega

/-- The spec scenario's snapshot A entry. -/
def showXEntry : AnimeData :=
  { title := "Show X", day := "Friday", time := "20:00", episode := "5",
    image := "", date := 0, trending := false, genre := "Anime" }

/-- The spec scenario's added entry of snapshot B. -/
def showYEntry : AnimeData :=
  { title := "Show Y", day := "Monday", time := "10:00", episode := "1",
    image := "", date := 0, trending := false, genre := "Anime" }

/-- C4 witness: current = [Show Y], previous = [Show X], title "show x":
the hypotheses hold and the amended claim applies. -/
theorem detectChanges_diff_complete_witness :
    (lowerTitles [showYEntry]).Nodup ∧
    (("show x" ∈ lowerTitles [showXEntry] ∧ "show x" ∉ lowerTitles [showYEntry] →
        countCancel (detectChanges [showYEntry] [showXEntry] 0) "show x" = 1) ∧
     ("show x" ∈ lowerTitles [showYEntry] ∧ "show x" ∉ lowerTitles [showXEntry] →
        countNew (detectChanges [showYEntry] [showXEntry] 0) "show x" = 1) ∧
     ¬ (1 ≤ countNew (detectChanges [showYEntry] [showXEntry] 0) "show x" ∧
        1 ≤ countCancel (detectChanges [showYEntry] [showXEntry] 0) "show x")) :=
  ⟨by decide, detectChanges_diff_complete [showYEntry] [showXEntry] 0 "show x" (by decide)⟩

end AnimeFlow
